import Mathlib

/-!
Verification of the multi-image dataset module
(`threestudio/data/multi_image.py` of ifusion-threestudio).

The development shallowly embeds the parts of the module that carry real
design content: the resolution scheduler driven by `bisect.bisect_right`,
the manifest loader (pose conversion and global distance normalization),
the per-tier unit-focal ray-direction cache, the spherical camera placement
and look-at basis construction, and the depth/normal gating of `collate`.

Machine floats are modelled by exact rationals where the computation is
rational, and by real numbers where trigonometry is involved.
-/

namespace MultiImage

/-! ## Resolution scheduler (`update_step_`) -/

/-- Python's `bisect.bisect_right a x` on a sorted list: the insertion point
`i` such that every element of `a[:i]` is `≤ x` and every element of `a[i:]`
is `> x` (right-exclusive semantics).  On a sorted list this is the index of
the first element strictly greater than `x`, which is what this structural
scan computes. -/
def bisectRight : List ℤ → ℤ → ℕ
  | [], _ => 0
  | a :: as, x => if x < a then 0 else bisectRight as x + 1

/-- Tier selection of `update_step_` (line 278):
`size_ind = bisect.bisect_right(self.resolution_milestones, global_step) - 1`.
Subtraction is truncated at `0`; in the program the first milestone is the
sentinel `-1` and global steps are nonnegative, so the Python value is
nonnegative as well. -/
def selectTier (milestones : List ℤ) (globalStep : ℤ) : ℕ :=
  bisectRight milestones globalStep - 1

lemma bisectRight_le_length (l : List ℤ) (x : ℤ) : bisectRight l x ≤ l.length := by
  induction l with
  | nil => simp [bisectRight]
  | cons a as ih =>
    simp only [bisectRight, List.length_cons]
    split
    · exact Nat.zero_le _
    · exact Nat.succ_le_succ ih

lemma getD_le_of_lt_bisectRight :
    ∀ {l : List ℤ} {x : ℤ} {j : ℕ}, j < bisectRight l x → l.getD j 0 ≤ x := by
  intro l
  induction l with
  | nil => intro x j hj; simp [bisectRight] at hj
  | cons a as ih =>
    intro x j hj
    simp only [bisectRight] at hj
    by_cases hxa : x < a
    · simp [hxa] at hj
    · simp only [if_neg hxa] at hj
      cases j with
      | zero => simpa using le_of_not_lt hxa
      | succ j => simpa using ih (Nat.lt_of_succ_lt_succ hj)

lemma lt_getD_bisectRight :
    ∀ {l : List ℤ} {x : ℤ}, bisectRight l x < l.length →
      x < l.getD (bisectRight l x) 0 := by
  intro l
  induction l with
  | nil => intro x hx; simp [bisectRight] at hx
  | cons a as ih =>
    intro x hx
    simp only [bisectRight] at hx ⊢
    by_cases hxa : x < a
    · simp [hxa]
    · simp only [if_neg hxa] at hx ⊢
      simpa using ih (Nat.lt_of_succ_lt_succ hx)

lemma bisectRight_mono {x y : ℤ} (hxy : x ≤ y) :
    ∀ l : List ℤ, bisectRight l x ≤ bisectRight l y := by
  intro l
  induction l with
  | nil => simp [bisectRight]
  | cons a as ih =>
    simp only [bisectRight]
    by_cases hy : y < a
    · have hx : x < a := lt_of_le_of_lt hxy hy
      simp [hx, hy]
    · by_cases hx : x < a
      · simp [hx, hy]
      · simpa [hx, hy] using ih

lemma one_le_bisectRight {l : List ℤ} {x : ℤ} (hs : l.Sorted (· ≤ ·))
    (hex : ∃ m ∈ l, m ≤ x) : 1 ≤ bisectRight l x := by
  obtain ⟨m, hm, hmx⟩ := hex
  cases l with
  | nil => simp at hm
  | cons a as =>
    have ha : a ≤ x := by
      rcases List.mem_cons.mp hm with h | h
      · exact h ▸ hmx
      · exact le_trans ((List.sorted_cons.mp hs).1 m h) hmx
    simp [bisectRight, not_lt.mpr ha]

lemma sorted_getD_le :
    ∀ {l : List ℤ}, l.Sorted (· ≤ ·) → ∀ {i j : ℕ}, i ≤ j → j < l.length →
      l.getD i 0 ≤ l.getD j 0 := by
  intro l
  induction l with
  | nil => intro _ i j _ hj; simp at hj
  | cons a as ih =>
    intro hs i j hij hj
    obtain ⟨ha, has⟩ := List.sorted_cons.mp hs
    cases i with
    | zero =>
      cases j with
      | zero => simp
      | succ j =>
        simp only [List.getD_cons_zero, List.getD_cons_succ]
        have hjlen : j < as.length := by simpa using hj
        have hmem : as.getD j 0 ∈ as := by
          rw [List.getD_eq_getElem as 0 hjlen]
          exact List.getElem_mem hjlen
        exact ha _ hmem
    | succ i =>
      cases j with
      | zero => omega
      | succ j =>
        simp only [List.getD_cons_succ]
        exact ih has (Nat.succ_le_succ_iff.mp hij) (by simpa using hj)

/-- Scheduler state: the fields of `MultiImageDataBase` that `update_step_`
reads and writes.  `setRaysCalls` and `loadImagesCalls` count the calls to
`set_rays()` and `load_images()` so that recomputation side effects are
observable in the model. -/
structure SchedState where
  resolutionMilestones : List ℤ
  heights : List ℕ
  widths : List ℕ
  height : ℕ
  width : ℕ
  prevHeight : ℕ
  setRaysCalls : ℕ
  loadImagesCalls : ℕ
deriving DecidableEq, Repr

/-- `MultiImageDataBase.update_step_` (lines 277-289): pick the tier by
right-exclusive bisection, write `self.height`, and return early when the new
height equals `self.prev_height`; otherwise update `prev_height`, `width`,
the cached per-tier data, and call `set_rays()` and `load_images()`. -/
def update_step (s : SchedState) (globalStep : ℤ) : SchedState :=
  let sizeInd := selectTier s.resolutionMilestones globalStep
  let h := s.heights.getD sizeInd 0
  if h = s.prevHeight then { s with height := h }
  else
    { s with
      height := h
      prevHeight := h
      width := s.widths.getD sizeInd 0
      setRaysCalls := s.setRaysCalls + 1
      loadImagesCalls := s.loadImagesCalls + 1 }

/-- C1: for every sorted milestone list and every global step `g` with some
milestone `≤ g`, the scheduler selects the tier whose milestone is the
largest one `≤ g` (right-exclusive bisection); on milestones `[-1, 100, 500]`
the steps `[0, 50, 100, 300, 500, 900]` select tiers `[0, 0, 1, 1, 2, 2]`;
and the selected tier index is monotone in the step. -/
theorem scheduler_selects_largest_milestone (ms : List ℤ) (g : ℤ)
    (hs : ms.Sorted (· ≤ ·)) (hex : ∃ m ∈ ms, m ≤ g) :
    (selectTier ms g < ms.length ∧
      ms.getD (selectTier ms g) 0 ≤ g ∧
      (∀ j, j < ms.length → ms.getD j 0 ≤ g → j ≤ selectTier ms g)) ∧
    ([0, 50, 100, 300, 500, 900].map (selectTier [-1, 100, 500]) =
      [0, 0, 1, 1, 2, 2]) ∧
    (∀ gNext, g ≤ gNext → selectTier ms g ≤ selectTier ms gNext) := by
  have hb1 : 1 ≤ bisectRight ms g := one_le_bisectRight hs hex
  have hble : bisectRight ms g ≤ ms.length := bisectRight_le_length ms g
  have hsel : selectTier ms g + 1 = bisectRight ms g := by
    unfold selectTier; omega
  refine ⟨⟨?_, ?_, ?_⟩, by decide, ?_⟩
  · omega
  · exact getD_le_of_lt_bisectRight (by omega)
  · intro j hj hjle
    by_contra hgt
    have hbj : bisectRight ms g ≤ j := by omega
    have hblen : bisectRight ms g < ms.length := lt_of_le_of_lt hbj hj
    have h1 : g < ms.getD (bisectRight ms g) 0 := lt_getD_bisectRight hblen
    have h2 : ms.getD (bisectRight ms g) 0 ≤ ms.getD j 0 :=
      sorted_getD_le hs hbj hj
    omega
  · intro gNext hg
    exact Nat.sub_le_sub_right (bisectRight_mono hg ms) 1

/-- Witness for C1 at milestones `[-1, 100, 500]` and step `0`. -/
theorem scheduler_selects_largest_milestone_witness :
    ([-1, 100, 500] : List ℤ).Sorted (· ≤ ·) ∧
      selectTier [-1, 100, 500] 0 < ([-1, 100, 500] : List ℤ).length ∧
      ([-1, 100, 500] : List ℤ).getD (selectTier [-1, 100, 500] 0) 0 ≤ 0 :=
  ⟨by decide,
    (scheduler_selects_largest_milestone [-1, 100, 500] 0 (by decide)
        ⟨-1, by decide⟩).1.1,
    (scheduler_selects_largest_milestone [-1, 100, 500] 0 (by decide)
        ⟨-1, by decide⟩).1.2.1⟩

/-- A scheduler state whose two tiers share the height `2` but have different
widths `2` and `3`; the second tier activates at step `10`. -/
def schedTwoWidths : SchedState :=
  { resolutionMilestones := [-1, 10]
    heights := [2, 2]
    widths := [2, 3]
    height := 2
    width := 2
    prevHeight := 2
    setRaysCalls := 0
    loadImagesCalls := 0 }

/-- Counterexample to C4: at step `10` the newly selected tier has resolution
`(2, 3)`, which differs from the previous resolution `(2, 2)` in width, yet
`update_step_` performs no ray recomputation and no image reload (the guard
compares heights only), and the stored width is not even updated. -/
theorem update_step_misses_width_change :
    (schedTwoWidths.heights.getD
        (selectTier schedTwoWidths.resolutionMilestones 10) 0,
      schedTwoWidths.widths.getD
        (selectTier schedTwoWidths.resolutionMilestones 10) 0) = (2, 3) ∧
    (schedTwoWidths.height, schedTwoWidths.width) = (2, 2) ∧
    (update_step schedTwoWidths 10).setRaysCalls = 0 ∧
    (update_step schedTwoWidths 10).loadImagesCalls = 0 ∧
    (update_step schedTwoWidths 10).width = 2 := by
  decide

lemma update_step_noop (s : SchedState) (g : ℤ)
    (h : s.heights.getD (selectTier s.resolutionMilestones g) 0 = s.prevHeight) :
    update_step s g = { s with height := s.prevHeight } := by
  simp only [update_step]
  rw [if_pos h, h]

lemma update_step_fields (s : SchedState) (g : ℤ) :
    (update_step s g).resolutionMilestones = s.resolutionMilestones ∧
    (update_step s g).heights = s.heights ∧
    (update_step s g).widths = s.widths ∧
    (update_step s g).prevHeight =
      s.heights.getD (selectTier s.resolutionMilestones g) 0 := by
  simp only [update_step]
  split
  next h => exact ⟨rfl, rfl, rfl, h.symm⟩
  next h => exact ⟨rfl, rfl, rfl, rfl⟩

/-- C4 (amended): the step-update hook recomputes precisely when the newly
selected tier's height differs from the previous height (the width is not
consulted): when the heights agree the state is unchanged except for
rewriting `height` with the same value, and no recompute or reload happens;
when they differ, rays are recomputed and images reloaded exactly once and
height, width, and `prev_height` are updated; consequently an immediate
second call with the same step never recomputes. -/
theorem update_step_recomputes_iff_height_changes (s : SchedState) (g : ℤ) :
    (s.heights.getD (selectTier s.resolutionMilestones g) 0 = s.prevHeight →
      update_step s g = { s with height := s.prevHeight }) ∧
    (s.heights.getD (selectTier s.resolutionMilestones g) 0 ≠ s.prevHeight →
      (update_step s g).setRaysCalls = s.setRaysCalls + 1 ∧
      (update_step s g).loadImagesCalls = s.loadImagesCalls + 1 ∧
      (update_step s g).height =
        s.heights.getD (selectTier s.resolutionMilestones g) 0 ∧
      (update_step s g).width =
        s.widths.getD (selectTier s.resolutionMilestones g) 0 ∧
      (update_step s g).prevHeight = (update_step s g).height) ∧
    (update_step (update_step s g) g).setRaysCalls =
      (update_step s g).setRaysCalls ∧
    (update_step (update_step s g) g).loadImagesCalls =
      (update_step s g).loadImagesCalls := by
  have hf := update_step_fields s g
  have hcond : (update_step s g).heights.getD
      (selectTier (update_step s g).resolutionMilestones g) 0
      = (update_step s g).prevHeight := by
    rw [hf.1, hf.2.1]
    exact hf.2.2.2.symm
  refine ⟨?_, ?_, ?_, ?_⟩
  · intro h
    exact update_step_noop s g h
  · intro h
    simp only [update_step]
    rw [if_neg h]
    exact ⟨rfl, rfl, rfl, rfl, rfl⟩
  · rw [update_step_noop (update_step s g) g hcond]
  · rw [update_step_noop (update_step s g) g hcond]

/-- A scheduler state whose second tier, activating at step `10`, changes the
height from `2` to `4`. -/
def schedTwoHeights : SchedState :=
  { resolutionMilestones := [-1, 10]
    heights := [2, 4]
    widths := [2, 4]
    height := 2
    width := 2
    prevHeight := 2
    setRaysCalls := 0
    loadImagesCalls := 0 }

/-- Witness for the amended C4: at step `10` the height changes from `2` to
`4`, so one recompute happens, and the immediate repeat call adds none. -/
theorem update_step_recomputes_iff_height_changes_witness :
    (update_step schedTwoHeights 10).setRaysCalls =
      schedTwoHeights.setRaysCalls + 1 ∧
    (update_step (update_step schedTwoHeights 10) 10).setRaysCalls =
      (update_step schedTwoHeights 10).setRaysCalls :=
  ⟨((update_step_recomputes_iff_height_changes schedTwoHeights 10).2.1
      (by decide)).1,
    (update_step_recomputes_iff_height_changes schedTwoHeights 10).2.2.1⟩

/-! ## Manifest loader (`load_transform`) -/

/-- The per-frame loop of `load_transform` (lines 167-179): each manifest
frame carries a `latlon` triple `(polar, azimuth, distance)`; the loop
appends `-polar + default_elevation_deg` to the elevation list and the
azimuth and distance unchanged to their lists. -/
def load_frames (off : ℚ) : List (ℚ × ℚ × ℚ) → List ℚ × List ℚ × List ℚ
  | [] => ([], [], [])
  | f :: fs =>
    let rest := load_frames off fs
    ((-f.1 + off) :: rest.1, f.2.1 :: rest.2.1, f.2.2 :: rest.2.2)

/-- Python's `min` over a list of numbers; `min` of an empty list raises, so
the model returns the junk value `0` there (the loader only calls it on the
distances of a nonempty frame set). -/
def pyMin : List ℚ → ℚ
  | [] => 0
  | [d] => d
  | d :: ds => min d (pyMin ds)

/-- The distance-rescaling pass of `load_transform` (lines 181-187):
`scale_factor = default_camera_distance / min(distances)`. -/
def scale_factor (ref : ℚ) (ds : List ℚ) : ℚ := ref / pyMin ds

/-- `default_camera_distances = [d * scale_factor for d in ...]`. -/
def normalize_distances (ref : ℚ) (ds : List ℚ) : List ℚ :=
  ds.map (fun d => d * scale_factor ref ds)

/-- `load_transform`: the frame loop followed by the one-pass global distance
rescaling. -/
def load_transform (ref off : ℚ) (frames : List (ℚ × ℚ × ℚ)) :
    List ℚ × List ℚ × List ℚ :=
  let p := load_frames off frames
  (p.1, p.2.1, normalize_distances ref p.2.2)

lemma pyMin_cons_cons (d e : ℚ) (es : List ℚ) :
    pyMin (d :: e :: es) = min d (pyMin (e :: es)) := rfl

lemma pyMin_mem : ∀ {ds : List ℚ}, ds ≠ [] → pyMin ds ∈ ds := by
  intro ds
  induction ds with
  | nil => intro h; exact absurd rfl h
  | cons d es ih =>
    intro _
    cases es with
    | nil => simp [pyMin]
    | cons e es =>
      rw [pyMin_cons_cons]
      rcases min_choice d (pyMin (e :: es)) with h | h
      · rw [h]; exact List.mem_cons_self _ _
      · rw [h]; exact List.mem_cons_of_mem _ (ih (by simp))

lemma pyMin_map_mul {f : ℚ} (hf : 0 ≤ f) :
    ∀ ds : List ℚ, pyMin (ds.map (fun d => d * f)) = pyMin ds * f := by
  intro ds
  induction ds with
  | nil => simp [pyMin]
  | cons d es ih =>
    cases es with
    | nil => simp [pyMin]
    | cons e es =>
      simp only [List.map_cons] at ih ⊢
      rw [pyMin_cons_cons, pyMin_cons_cons, ih, min_mul_of_nonneg _ _ hf]

/-- C5: the loader rescales all distances by the single global factor
`reference / minimum`, so the minimum normalized distance equals the
reference; on distances `[2, 4, 8]` with reference `3.8` the factor is `1.9`
and the result `[3.8, 7.6, 15.2]`. -/
theorem distance_normalization (ref : ℚ) (frames : List (ℚ × ℚ × ℚ))
    (hne : frames ≠ []) (hpos : ∀ p ∈ frames, 0 < p.2.2) (href : 0 < ref) :
    pyMin (load_transform ref 0 frames).2.2 = ref ∧
    (load_transform ref 0 frames).2.2 =
      (load_frames 0 frames).2.2.map
        (fun d => d * (ref / pyMin (load_frames 0 frames).2.2)) ∧
    normalize_distances (19/5) [2, 4, 8] = [19/5, 38/5, 76/5] ∧
    scale_factor (19/5) [2, 4, 8] = 19/10 := by
  have hds : ∀ d ∈ (load_frames 0 frames).2.2, 0 < d := by
    intro d hd
    clear hne
    induction frames with
    | nil => simp [load_frames] at hd
    | cons f fs ih =>
      simp only [load_frames] at hd
      rcases List.mem_cons.mp hd with h | h
      · exact h ▸ hpos f (List.mem_cons_self _ _)
      · exact ih (fun p hp => hpos p (List.mem_cons_of_mem _ hp)) h
  have hdne : (load_frames 0 frames).2.2 ≠ [] := by
    cases frames with
    | nil => exact absurd rfl hne
    | cons f fs => simp [load_frames]
  have hminpos : 0 < pyMin (load_frames 0 frames).2.2 :=
    hds _ (pyMin_mem hdne)
  refine ⟨?_, rfl, ?_, ?_⟩
  rotate_left
  · show [(2 : ℚ) * scale_factor (19/5) [2, 4, 8],
      4 * scale_factor (19/5) [2, 4, 8], 8 * scale_factor (19/5) [2, 4, 8]]
      = [19/5, 38/5, 76/5]
    norm_num [scale_factor, pyMin, min_def]
  · norm_num [scale_factor, pyMin, min_def]
  have hfac : 0 ≤ ref / pyMin (load_frames 0 frames).2.2 :=
    div_nonneg href.le hminpos.le
  show pyMin (normalize_distances ref (load_frames 0 frames).2.2) = ref
  rw [normalize_distances]
  unfold scale_factor
  rw [pyMin_map_mul hfac]
  field_simp

/-- Witness for C5 at one frame with distance `2` and reference `3.8`. -/
theorem distance_normalization_witness :
    ((0 : ℚ) < 19/5) ∧
      pyMin (load_transform (19/5) 0 [(0, 0, 2)]).2.2 = 19/5 :=
  ⟨by norm_num,
    (distance_normalization (19/5) [(0, 0, 2)] (by simp) (by norm_num)
        (by norm_num)).1⟩

/-- C7: the frame loop converts the stored polar angle via
`elevation = -polar + elevation_offset` and copies azimuth and distance
unchanged from the `latlon` triple. -/
theorem manifest_pose_conversion (off : ℚ) (frames : List (ℚ × ℚ × ℚ))
    (i : ℕ) (hi : i < frames.length) :
    (load_frames off frames).1.getD i 0 =
      -(frames.getD i (0, 0, 0)).1 + off ∧
    (load_frames off frames).2.1.getD i 0 = (frames.getD i (0, 0, 0)).2.1 ∧
    (load_frames off frames).2.2.getD i 0 = (frames.getD i (0, 0, 0)).2.2 := by
  induction frames generalizing i with
  | nil => simp at hi
  | cons f fs ih =>
    cases i with
    | zero => simp [load_frames]
    | succ i =>
      simp only [load_frames, List.getD_cons_succ]
      exact ih i (by simpa using hi)

/-- Witness for C7 on a manifest frame with latlon `(30, 120, 5)` and
elevation offset `10`. -/
theorem manifest_pose_conversion_witness :
    (0 < ([((30 : ℚ), (120 : ℚ), (5 : ℚ))] : List (ℚ × ℚ × ℚ)).length) ∧
      (load_frames 10 [((30 : ℚ), 120, 5)]).1.getD 0 0 =
        -(([((30 : ℚ), (120 : ℚ), (5 : ℚ))] : List (ℚ × ℚ × ℚ)).getD 0
            (0, 0, 0)).1 + 10 :=
  ⟨by decide, (manifest_pose_conversion 10 [((30 : ℚ), 120, 5)] 0 (by decide)).1⟩

/-! ## Per-tier unit-focal direction cache (`set_rays`) -/

/-- The cache state read by `set_rays` (lines 189-196): the stored per-tier
pixel grid `self.directions_unit_focal` (one rational triple per pixel) and
the active focal length. -/
structure RayCacheState where
  directionsUnitFocal : List (ℚ × ℚ × ℚ)
  focalLength : ℚ
deriving DecidableEq, Repr

/-- The direction computation of `set_rays`:
`directions = self.directions_unit_focal[None]` is a view sharing storage
with the cache, and the slice assignment
`directions[:, :, :, :2] = directions[:, :, :, :2] / self.focal_length`
writes through that view, so the returned directions and the stored cache
are the same values: the call divides the cached grid's first two components
in place. -/
def set_rays_directions (s : RayCacheState) :
    List (ℚ × ℚ × ℚ) × RayCacheState :=
  let directions := s.directionsUnitFocal.map
    (fun d => (d.1 / s.focalLength, d.2.1 / s.focalLength, d.2.2))
  (directions, { s with directionsUnitFocal := directions })

/-- C3 evidence: starting from a unit-focal cache pixel `(1, 1, -1)` with
focal length `2`, the first `set_rays` call returns directions
`(1/2, 1/2, -1)` and leaves the cache holding those scaled values (not the
unit-focal ones), and a second call at the same tier and focal length
returns `(1/4, 1/4, -1)`, different from the first call's result. -/
theorem set_rays_mutates_unit_focal_cache :
    (set_rays_directions ⟨[(1, 1, -1)], 2⟩).1 = [(1/2, 1/2, -1)] ∧
    (set_rays_directions ⟨[(1, 1, -1)], 2⟩).2.directionsUnitFocal =
      [(1/2, 1/2, -1)] ∧
    (set_rays_directions ⟨[(1, 1, -1)], 2⟩).2.directionsUnitFocal ≠
      [((1 : ℚ), (1 : ℚ), (-1 : ℚ))] ∧
    (set_rays_directions (set_rays_directions ⟨[(1, 1, -1)], 2⟩).2).1 =
      [(1/4, 1/4, -1)] ∧
    (set_rays_directions (set_rays_directions ⟨[(1, 1, -1)], 2⟩).2).1 ≠
      (set_rays_directions ⟨[(1, 1, -1)], 2⟩).1 := by
  refine ⟨?_, ?_, ?_, ?_, ?_⟩ <;> norm_num [set_rays_directions]

/-! ## Milestone validation in `setup` (lines 114-130) -/

/-- The resolution/milestone validation of `setup`: after normalizing
`height`/`width` to lists, assert equal list lengths; with a single tier,
warn (non-fatally) if milestones were provided and use the sentinel `[-1]`;
with several tiers, assert `len(heights) == len(milestones) + 1` and prepend
the sentinel.  The `Bool` in the result records whether the warning about
ignored milestones was logged. -/
def setup_resolution_milestones (heights widths : List ℕ)
    (milestones : List ℤ) : Except String (List ℤ × Bool) :=
  if heights.length ≠ widths.length then
    .error "assert len(self.heights) == len(self.widths)"
  else if heights.length = 1 ∧ widths.length = 1 then
    .ok ([-1], !milestones.isEmpty)
  else if heights.length = milestones.length + 1 then
    .ok (-1 :: milestones, false)
  else
    .error "assert len(self.heights) == len(self.cfg.resolution_milestones) + 1"

/-- C8: with matching height/width lists, configuring more than one tier
with a tier count different from milestone count plus one makes setup fail;
configuring exactly one tier succeeds for any milestone list, the milestone
list becomes the sentinel `[-1]`, and the warning is logged exactly when
milestones were provided; and a well-paired multi-tier configuration
succeeds with the sentinel prepended. -/
theorem setup_milestone_validation (heights widths : List ℕ)
    (milestones : List ℤ) (hw : heights.length = widths.length) :
    (1 < heights.length → heights.length ≠ milestones.length + 1 →
      setup_resolution_milestones heights widths milestones =
        .error "assert len(self.heights) == len(self.cfg.resolution_milestones) + 1") ∧
    (heights.length = 1 →
      setup_resolution_milestones heights widths milestones =
        .ok ([-1], !milestones.isEmpty)) ∧
    (1 < heights.length → heights.length = milestones.length + 1 →
      setup_resolution_milestones heights widths milestones =
        .ok (-1 :: milestones, false)) := by
  refine ⟨?_, ?_, ?_⟩
  · intro h1 h2
    rw [setup_resolution_milestones, if_neg (by omega), if_neg (by omega),
      if_neg h2]
  · intro h1
    rw [setup_resolution_milestones, if_neg (by omega),
      if_pos ⟨h1, by omega⟩]
  · intro h1 h2
    rw [setup_resolution_milestones, if_neg (by omega), if_neg (by omega),
      if_pos h2]

/-- Witness for C8: heights `[64, 128]`, widths `[64, 128]` with the empty
milestone list fail; heights `[64]`, widths `[64]` with milestones `[100]`
succeed with the sentinel list and a warning. -/
theorem setup_milestone_validation_witness :
    setup_resolution_milestones [64, 128] [64, 128] [] =
      .error "assert len(self.heights) == len(self.cfg.resolution_milestones) + 1" ∧
    setup_resolution_milestones [64] [64] [100] = .ok ([-1], true) :=
  ⟨(setup_milestone_validation [64, 128] [64, 128] [] rfl).1 (by decide)
      (by decide),
    (setup_milestone_validation [64] [64] [100] rfl).2.1 rfl⟩

/-! ## Depth/normal gating of `collate` -/

/-- Python truthiness of a torch tensor (modelled as its flattened element
list): a one-element tensor is truthy iff its element is nonzero; any other
element count raises `RuntimeError: Boolean value of Tensor with more than
one element is ambiguous`. -/
def tensorBool : List ℚ → Except String Bool
  | [v] => .ok (decide (v ≠ 0))
  | _ => .error "Boolean value of Tensor with more than one element is ambiguous"

/-- Evaluation of `not self.depth` in `collate` (line 310): `self.depth` is
either `None` (truthiness `False`, so `not` gives `True`) or a tensor, whose
truthiness may raise. -/
def pyNotOptTensor : Option (List ℚ) → Except String Bool
  | none => .ok true
  | some t => do
    let b ← tensorBool t
    .ok (!b)

/-- Outcome of the `load_images` loop (lines 227-257, 265-272) for the depth
and normal fields: when the requirement flag is set the stacked tensor data
is stored, otherwise the field is left `None`. -/
def loaded_modality (requires : Bool) (data : List ℚ) : Option (List ℚ) :=
  if requires then some data else none

/-- The `ref_depth` and `ref_normal` entries of `collate` (lines 310-311):
`"ref_depth": None if not self.depth else self.depth[idx]` and
`"ref_normal": None if not self.depth else self.normal[idx]` — both
conditions test `self.depth`. Indexing `None` raises `TypeError`. -/
def collate_ref_entries (depth normalData : Option (List ℚ)) (idx : ℕ) :
    Except String (Option ℚ × Option ℚ) := do
  let depthFalsy ← pyNotOptTensor depth
  let refDepth ←
    if depthFalsy then pure (none : Option ℚ)
    else
      match depth with
      | some t => pure (some (t.getD idx 0))
      | none => .error "NoneType object is not subscriptable"
  let depthFalsy2 ← pyNotOptTensor depth
  let refNormal ←
    if depthFalsy2 then pure (none : Option ℚ)
    else
      match normalData with
      | some t => pure (some (t.getD idx 0))
      | none => .error "NoneType object is not subscriptable"
  .ok (refDepth, refNormal)

/-- C10: both `ref_depth` and `ref_normal` are gated on `self.depth`: with
`requires_depth = False` and `requires_normal = True` the batch carries
`ref_normal = None` even though normal data was loaded; and with
`requires_depth = True` the gate applies Python truthiness to a multi-element
depth tensor, so `collate` raises instead of returning the loaded data. -/
theorem collate_refs_gated_on_depth (normals depths : List ℚ) (idx : ℕ)
    (hmulti : 2 ≤ depths.length) :
    collate_ref_entries (loaded_modality false depths)
        (loaded_modality true normals) idx = .ok (none, none) ∧
    ∃ msg, collate_ref_entries (loaded_modality true depths)
        (loaded_modality true normals) idx = .error msg := by
  constructor
  · rfl
  · match depths, hmulti with
    | d1 :: d2 :: rest, _ =>
      exact ⟨"Boolean value of Tensor with more than one element is ambiguous",
        rfl⟩

/-- Witness for C10 with loaded normals `[3]`, a two-element depth tensor
`[1, 2]`, and sample index `0`. -/
theorem collate_refs_gated_on_depth_witness :
    2 ≤ ([(1 : ℚ), 2] : List ℚ).length ∧
      collate_ref_entries (loaded_modality false [(1 : ℚ), 2])
        (loaded_modality true [(3 : ℚ)]) 0 = .ok (none, none) :=
  ⟨by decide, (collate_refs_gated_on_depth [(3 : ℚ)] [(1 : ℚ), 2] 0
      (by decide)).1⟩

/-! ## Camera geometry (`setup`, lines 79-104)

Machine floats are modelled by real numbers; `F.normalize` is modelled
faithfully including its `eps = 1e-12` clamp, which silently turns a
zero-length input into the zero vector instead of raising. -/

noncomputable section

/-- Degree-to-radian conversion `x * math.pi / 180` (lines 83-84). -/
def deg2rad (x : ℝ) : ℝ := x * Real.pi / 180

/-- Elementwise product of two coordinate rows (a broadcast tensor product). -/
def mul2 : List ℝ → List ℝ → List ℝ
  | a :: as, b :: bs => (a * b) :: mul2 as bs
  | _, _ => []

/-- Elementwise product of three coordinate rows. -/
def mul3 : List ℝ → List ℝ → List ℝ → List ℝ
  | a :: as, b :: bs, c :: cs => (a * b * c) :: mul3 as bs cs
  | _, _, _ => []

/-- `torch.cat([...]).T`: three stacked coordinate rows transposed into
per-camera triples. -/
def zip3 : List ℝ → List ℝ → List ℝ → List (ℝ × ℝ × ℝ)
  | a :: as, b :: bs, c :: cs => (a, b, c) :: zip3 as bs cs
  | _, _, _ => []

/-- `camera_positions` (lines 85-91): rows
`distances * cos(elevations) * cos(azimuths)`,
`distances * cos(elevations) * sin(azimuths)`,
`distances * sin(elevations)` concatenated and transposed, with elevations
and azimuths first converted to radians. -/
def camera_positions (elevationDegs azimuthDegs distances : List ℝ) :
    List (ℝ × ℝ × ℝ) :=
  zip3
    (mul3 distances ((elevationDegs.map deg2rad).map Real.cos)
      ((azimuthDegs.map deg2rad).map Real.cos))
    (mul3 distances ((elevationDegs.map deg2rad).map Real.cos)
      ((azimuthDegs.map deg2rad).map Real.sin))
    (mul2 distances ((elevationDegs.map deg2rad).map Real.sin))

/-- Modelled from the spec's words: the standard spherical-to-Cartesian
mapping `x = d cos(el) cos(az)`, `y = d cos(el) sin(az)`, `z = d sin(el)`. -/
def sphericalToCartesian (el az d : ℝ) : ℝ × ℝ × ℝ :=
  (d * Real.cos el * Real.cos az, d * Real.cos el * Real.sin az,
    d * Real.sin el)

/-- The spec mapping applied per camera after degree-to-radian conversion. -/
def sphericalMap : List ℝ → List ℝ → List ℝ → List (ℝ × ℝ × ℝ)
  | e :: es, a :: as, d :: ds =>
    sphericalToCartesian (deg2rad e) (deg2rad a) d :: sphericalMap es as ds
  | _, _, _ => []

lemma camera_positions_cons (e a d : ℝ) (es as ds : List ℝ) :
    camera_positions (e :: es) (a :: as) (d :: ds) =
      (d * Real.cos (deg2rad e) * Real.cos (deg2rad a),
        d * Real.cos (deg2rad e) * Real.sin (deg2rad a),
        d * Real.sin (deg2rad e)) :: camera_positions es as ds := rfl

/-- C6: every computed camera position is exactly the spherical-to-Cartesian
mapping of the (elevation, azimuth, distance) triple, with the angles
converted from degrees to radians. -/
theorem camera_positions_spherical (els azs ds : List ℝ) :
    camera_positions els azs ds = sphericalMap els azs ds := by
  induction els generalizing azs ds with
  | nil =>
    cases azs <;> cases ds <;>
      simp [camera_positions, sphericalMap, mul2, mul3, zip3]
  | cons e es ih =>
    cases azs with
    | nil =>
      cases ds <;> simp [camera_positions, sphericalMap, mul2, mul3, zip3]
    | cons a as =>
      cases ds with
      | nil => simp [camera_positions, sphericalMap, mul2, mul3, zip3]
      | cons d dtl =>
        rw [camera_positions_cons, ih]
        rfl

/-- A 3-vector of reals, one row of the pose tensors. -/
structure V3 where
  x : ℝ
  y : ℝ
  z : ℝ

/-- Dot product of two 3-vectors. -/
def dot (a b : V3) : ℝ := a.x * b.x + a.y * b.y + a.z * b.z

/-- `torch.cross` along the coordinate dimension. -/
def cross (a b : V3) : V3 :=
  ⟨a.y * b.z - a.z * b.y, a.z * b.x - a.x * b.z, a.x * b.y - a.y * b.x⟩

/-- Euclidean norm of a 3-vector. -/
def vnorm (v : V3) : ℝ := Real.sqrt (v.x ^ 2 + v.y ^ 2 + v.z ^ 2)

/-- Componentwise difference. -/
def vsub (a b : V3) : V3 := ⟨a.x - b.x, a.y - b.y, a.z - b.z⟩

/-- Componentwise negation. -/
def vneg (a : V3) : V3 := ⟨-a.x, -a.y, -a.z⟩

/-- The default `eps` of `torch.nn.functional.normalize`. -/
def feps : ℝ := 1 / 10 ^ 12

/-- `F.normalize(v, dim=-1)`: division by `max(norm(v), eps)`.  A zero-length
input is returned unchanged (as the zero vector), not rejected. -/
def fnormalize (v : V3) : V3 :=
  ⟨v.x / max (vnorm v) feps, v.y / max (vnorm v) feps,
    v.z / max (vnorm v) feps⟩

/-- One camera position from the spherical pose (lines 85-91). -/
def cameraPosition (elevationDeg azimuthDeg distance : ℝ) : V3 :=
  ⟨distance * Real.cos (deg2rad elevationDeg) * Real.cos (deg2rad azimuthDeg),
    distance * Real.cos (deg2rad elevationDeg) * Real.sin (deg2rad azimuthDeg),
    distance * Real.sin (deg2rad elevationDeg)⟩

/-- The look-at target `center = torch.zeros_like(...)` (line 93). -/
def center : V3 := ⟨0, 0, 0⟩

/-- The fixed world up vector `(0, 0, 1)` (line 94). -/
def worldUp : V3 := ⟨0, 0, 1⟩

/-- `lookat = F.normalize(center - camera_positions)` (line 97). -/
def lookat (p : V3) : V3 := fnormalize (vsub center p)

/-- `right = F.normalize(torch.cross(lookat, up))` (line 98). -/
def rightOf (p : V3) : V3 := fnormalize (cross (lookat p) worldUp)

/-- `up = F.normalize(torch.cross(right, lookat))` (line 99). -/
def upOf (p : V3) : V3 := fnormalize (cross (rightOf p) (lookat p))

/-- The camera-to-world matrix (lines 101-104) as its four columns:
`torch.stack([right, up, -lookat], dim=-1)` makes `right`, `up`, `-lookat`
the rotation columns, and the camera position is appended as the
translation column. -/
def c2w (p : V3) : V3 × V3 × V3 × V3 := (rightOf p, upOf p, vneg (lookat p), p)

lemma feps_pos : 0 < feps := by norm_num [feps]

lemma vnorm_eq {v : V3} {r : ℝ} (hr : 0 ≤ r)
    (h : v.x ^ 2 + v.y ^ 2 + v.z ^ 2 = r ^ 2) : vnorm v = r := by
  rw [vnorm, h, Real.sqrt_sq hr]

lemma fnormalize_of_norm {v : V3} {r : ℝ} (hr : feps ≤ r) (h : vnorm v = r) :
    fnormalize v = ⟨v.x / r, v.y / r, v.z / r⟩ := by
  rw [fnormalize, h, max_eq_left hr]

lemma fnormalize_zero : fnormalize ⟨0, 0, 0⟩ = ⟨0, 0, 0⟩ := by
  have h : vnorm ⟨0, 0, 0⟩ = 0 := vnorm_eq le_rfl (by norm_num)
  rw [fnormalize, h]
  simp

/-- C2 evidence: at elevation exactly 90° (camera straight above the
origin, forward antiparallel to the up vector), the basis construction does
not fail: the cross product is the exact zero vector, `F.normalize` clamps
its zero norm to `eps` and silently returns the zero vector, so both the
`right` and the re-orthogonalized `up` columns of the returned basis are
zero.  No error path exists in the construction. -/
theorem degenerate_elevation_silently_normalized :
    cameraPosition 90 0 (19/5) = ⟨0, 0, 19/5⟩ ∧
    cross (lookat (cameraPosition 90 0 (19/5))) worldUp = ⟨0, 0, 0⟩ ∧
    rightOf (cameraPosition 90 0 (19/5)) = ⟨0, 0, 0⟩ ∧
    upOf (cameraPosition 90 0 (19/5)) = ⟨0, 0, 0⟩ := by
  have h90 : deg2rad 90 = Real.pi / 2 := by rw [deg2rad]; ring
  have h0 : deg2rad 0 = 0 := by rw [deg2rad]; ring
  have hp : cameraPosition 90 0 (19/5) = ⟨0, 0, 19/5⟩ := by
    rw [cameraPosition, h90, h0]
    norm_num [Real.cos_pi_div_two, Real.sin_pi_div_two]
  have hlook : lookat (cameraPosition 90 0 (19/5)) = ⟨0, 0, -1⟩ := by
    rw [lookat, hp]
    have hsub : vsub center ⟨0, 0, 19/5⟩ = ⟨0, 0, -(19/5)⟩ := by
      norm_num [vsub, center]
    rw [hsub]
    have hn : vnorm ⟨0, 0, -(19/5)⟩ = 19/5 :=
      vnorm_eq (by norm_num) (by norm_num)
    rw [fnormalize_of_norm (by norm_num [feps]) hn]
    norm_num
  have hcross : cross (lookat (cameraPosition 90 0 (19/5))) worldUp
      = ⟨0, 0, 0⟩ := by
    rw [hlook]
    norm_num [cross, worldUp]
  have hright : rightOf (cameraPosition 90 0 (19/5)) = ⟨0, 0, 0⟩ := by
    rw [rightOf, hcross, fnormalize_zero]
  refine ⟨hp, hcross, hright, ?_⟩
  rw [upOf, hright]
  have : cross ⟨0, 0, 0⟩ (lookat (cameraPosition 90 0 (19/5))) = ⟨0, 0, 0⟩ := by
    norm_num [cross]
  rw [this, fnormalize_zero]

lemma look_at_basis (elDeg azDeg dist : ℝ)
    (hd : feps < dist) (hc : feps < Real.cos (deg2rad elDeg)) :
    lookat (cameraPosition elDeg azDeg dist) =
      ⟨-(Real.cos (deg2rad elDeg) * Real.cos (deg2rad azDeg)),
        -(Real.cos (deg2rad elDeg) * Real.sin (deg2rad azDeg)),
        -Real.sin (deg2rad elDeg)⟩ ∧
    rightOf (cameraPosition elDeg azDeg dist) =
      ⟨-Real.sin (deg2rad azDeg), Real.cos (deg2rad azDeg), 0⟩ ∧
    upOf (cameraPosition elDeg azDeg dist) =
      ⟨-(Real.sin (deg2rad elDeg) * Real.cos (deg2rad azDeg)),
        -(Real.sin (deg2rad elDeg) * Real.sin (deg2rad azDeg)),
        Real.cos (deg2rad elDeg)⟩ := by
  have hd0 : 0 < dist := lt_trans feps_pos hd
  have hc0 : 0 < Real.cos (deg2rad elDeg) := lt_trans feps_pos hc
  have hpy1 : Real.sin (deg2rad elDeg) ^ 2 + Real.cos (deg2rad elDeg) ^ 2 = 1 :=
    Real.sin_sq_add_cos_sq _
  have hpy2 : Real.sin (deg2rad azDeg) ^ 2 + Real.cos (deg2rad azDeg) ^ 2 = 1 :=
    Real.sin_sq_add_cos_sq _
  have hsub : vsub center (cameraPosition elDeg azDeg dist) =
      ⟨-(dist * Real.cos (deg2rad elDeg) * Real.cos (deg2rad azDeg)),
        -(dist * Real.cos (deg2rad elDeg) * Real.sin (deg2rad azDeg)),
        -(dist * Real.sin (deg2rad elDeg))⟩ := by
    simp [vsub, center, cameraPosition]
  have hnormp : vnorm
      ⟨-(dist * Real.cos (deg2rad elDeg) * Real.cos (deg2rad azDeg)),
        -(dist * Real.cos (deg2rad elDeg) * Real.sin (deg2rad azDeg)),
        -(dist * Real.sin (deg2rad elDeg))⟩ = dist :=
    vnorm_eq hd0.le (by
      show (-(dist * Real.cos (deg2rad elDeg) * Real.cos (deg2rad azDeg))) ^ 2
          + (-(dist * Real.cos (deg2rad elDeg) * Real.sin (deg2rad azDeg))) ^ 2
          + (-(dist * Real.sin (deg2rad elDeg))) ^ 2 = dist ^ 2
      linear_combination dist ^ 2 * Real.cos (deg2rad elDeg) ^ 2 * hpy2
        + dist ^ 2 * hpy1)
  have hlook : lookat (cameraPosition elDeg azDeg dist) =
      ⟨-(Real.cos (deg2rad elDeg) * Real.cos (deg2rad azDeg)),
        -(Real.cos (deg2rad elDeg) * Real.sin (deg2rad azDeg)),
        -Real.sin (deg2rad elDeg)⟩ := by
    rw [lookat, hsub, fnormalize_of_norm hd.le hnormp]
    simp only [V3.mk.injEq]
    refine ⟨?_, ?_, ?_⟩ <;> field_simp <;> ring
  have hcross1 : cross (lookat (cameraPosition elDeg azDeg dist)) worldUp =
      ⟨-(Real.cos (deg2rad elDeg) * Real.sin (deg2rad azDeg)),
        Real.cos (deg2rad elDeg) * Real.cos (deg2rad azDeg), 0⟩ := by
    rw [hlook]
    simp only [cross, worldUp, V3.mk.injEq]
    refine ⟨by ring, by ring, by ring⟩
  have hnormc : vnorm
      ⟨-(Real.cos (deg2rad elDeg) * Real.sin (deg2rad azDeg)),
        Real.cos (deg2rad elDeg) * Real.cos (deg2rad azDeg), 0⟩ =
      Real.cos (deg2rad elDeg) :=
    vnorm_eq hc0.le (by
      show (-(Real.cos (deg2rad elDeg) * Real.sin (deg2rad azDeg))) ^ 2
          + (Real.cos (deg2rad elDeg) * Real.cos (deg2rad azDeg)) ^ 2
          + (0 : ℝ) ^ 2 = Real.cos (deg2rad elDeg) ^ 2
      linear_combination Real.cos (deg2rad elDeg) ^ 2 * hpy2)
  have hright : rightOf (cameraPosition elDeg azDeg dist) =
      ⟨-Real.sin (deg2rad azDeg), Real.cos (deg2rad azDeg), 0⟩ := by
    rw [rightOf, hcross1, fnormalize_of_norm hc.le hnormc]
    simp only [V3.mk.injEq]
    refine ⟨?_, ?_, ?_⟩ <;> field_simp <;> ring
  have hcross2 : cross (rightOf (cameraPosition elDeg azDeg dist))
      (lookat (cameraPosition elDeg azDeg dist)) =
      ⟨-(Real.sin (deg2rad elDeg) * Real.cos (deg2rad azDeg)),
        -(Real.sin (deg2rad elDeg) * Real.sin (deg2rad azDeg)),
        Real.cos (deg2rad elDeg)⟩ := by
    rw [hright, hlook]
    simp only [cross, V3.mk.injEq]
    refine ⟨by ring, by ring, by linear_combination Real.cos (deg2rad elDeg) * hpy2⟩
  have hnormu : vnorm
      ⟨-(Real.sin (deg2rad elDeg) * Real.cos (deg2rad azDeg)),
        -(Real.sin (deg2rad elDeg) * Real.sin (deg2rad azDeg)),
        Real.cos (deg2rad elDeg)⟩ = 1 :=
    vnorm_eq zero_le_one (by
      show (-(Real.sin (deg2rad elDeg) * Real.cos (deg2rad azDeg))) ^ 2
          + (-(Real.sin (deg2rad elDeg) * Real.sin (deg2rad azDeg))) ^ 2
          + Real.cos (deg2rad elDeg) ^ 2 = 1 ^ 2
      linear_combination Real.sin (deg2rad elDeg) ^ 2 * hpy2 + hpy1)
  have hup : upOf (cameraPosition elDeg azDeg dist) =
      ⟨-(Real.sin (deg2rad elDeg) * Real.cos (deg2rad azDeg)),
        -(Real.sin (deg2rad elDeg) * Real.sin (deg2rad azDeg)),
        Real.cos (deg2rad elDeg)⟩ := by
    rw [upOf, hcross2, fnormalize_of_norm (by norm_num [feps]) hnormu]
    simp
  exact ⟨hlook, hright, hup⟩

/-- C9: for a pose with elevation strictly between -90° and 90° (with the
distance and the elevation cosine above the `F.normalize` clamp `eps`, so
that the normalizations are exact), the camera-to-world transform consists of
the columns `[right | up | -lookat | position]` and the three rotation
columns are pairwise orthogonal unit vectors. -/
theorem c2w_columns_orthonormal (elDeg azDeg dist : ℝ)
    (hel1 : -90 < elDeg) (hel2 : elDeg < 90)
    (hd : feps < dist) (hc : feps < Real.cos (deg2rad elDeg)) :
    c2w (cameraPosition elDeg azDeg dist) =
      (rightOf (cameraPosition elDeg azDeg dist),
        upOf (cameraPosition elDeg azDeg dist),
        vneg (lookat (cameraPosition elDeg azDeg dist)),
        cameraPosition elDeg azDeg dist) ∧
    dot (rightOf (cameraPosition elDeg azDeg dist))
      (upOf (cameraPosition elDeg azDeg dist)) = 0 ∧
    dot (rightOf (cameraPosition elDeg azDeg dist))
      (vneg (lookat (cameraPosition elDeg azDeg dist))) = 0 ∧
    dot (upOf (cameraPosition elDeg azDeg dist))
      (vneg (lookat (cameraPosition elDeg azDeg dist))) = 0 ∧
    vnorm (rightOf (cameraPosition elDeg azDeg dist)) = 1 ∧
    vnorm (upOf (cameraPosition elDeg azDeg dist)) = 1 ∧
    vnorm (vneg (lookat (cameraPosition elDeg azDeg dist))) = 1 := by
  obtain ⟨hlook, hright, hup⟩ := look_at_basis elDeg azDeg dist hd hc
  have hpy1 : Real.sin (deg2rad elDeg) ^ 2 + Real.cos (deg2rad elDeg) ^ 2 = 1 :=
    Real.sin_sq_add_cos_sq _
  have hpy2 : Real.sin (deg2rad azDeg) ^ 2 + Real.cos (deg2rad azDeg) ^ 2 = 1 :=
    Real.sin_sq_add_cos_sq _
  refine ⟨rfl, ?_, ?_, ?_, ?_, ?_, ?_⟩
  · rw [hright, hup]
    simp only [dot]
    ring
  · rw [hright, hlook]
    simp only [dot, vneg]
    ring
  · rw [hup, hlook]
    simp only [dot, vneg]
    linear_combination -(Real.sin (deg2rad elDeg) * Real.cos (deg2rad elDeg))
      * hpy2
  · rw [hright]
    exact vnorm_eq zero_le_one (by
      show (-Real.sin (deg2rad azDeg)) ^ 2 + Real.cos (deg2rad azDeg) ^ 2
        + (0 : ℝ) ^ 2 = 1 ^ 2
      linear_combination hpy2)
  · rw [hup]
    exact vnorm_eq zero_le_one (by
      show (-(Real.sin (deg2rad elDeg) * Real.cos (deg2rad azDeg))) ^ 2
          + (-(Real.sin (deg2rad elDeg) * Real.sin (deg2rad azDeg))) ^ 2
          + Real.cos (deg2rad elDeg) ^ 2 = 1 ^ 2
      linear_combination Real.sin (deg2rad elDeg) ^ 2 * hpy2 + hpy1)
  · rw [hlook]
    exact vnorm_eq zero_le_one (by
      show (- -(Real.cos (deg2rad elDeg) * Real.cos (deg2rad azDeg))) ^ 2
          + (- -(Real.cos (deg2rad elDeg) * Real.sin (deg2rad azDeg))) ^ 2
          + (- -Real.sin (deg2rad elDeg)) ^ 2 = 1 ^ 2
      linear_combination Real.cos (deg2rad elDeg) ^ 2 * hpy2 + hpy1)

/-- Witness for C9 at elevation 0°, azimuth 0°, distance 1. -/
theorem c2w_columns_orthonormal_witness :
    feps < (1 : ℝ) ∧
      vnorm (rightOf (cameraPosition 0 0 1)) = 1 ∧
      dot (rightOf (cameraPosition 0 0 1)) (upOf (cameraPosition 0 0 1)) = 0 := by
  have hc : feps < Real.cos (deg2rad 0) := by
    have h0 : deg2rad 0 = 0 := by rw [deg2rad]; ring
    rw [h0, Real.cos_zero]
    norm_num [feps]
  exact ⟨by norm_num [feps],
    (c2w_columns_orthonormal 0 0 1 (by norm_num) (by norm_num)
        (by norm_num [feps]) hc).2.2.2.2.1,
    (c2w_columns_orthonormal 0 0 1 (by norm_num) (by norm_num)
        (by norm_num [feps]) hc).2.1⟩

end

end MultiImage
